import Mathlib

/-!
Verification development for the dataset-search core of the Bento federation
service.  Python values flowing through the query engine (JSON-ish nested
lists, strings, booleans, integers and `None`) are embedded as the inductive
type `QVal`; each Python function of
`bento_federation_service/search/dataset_search/dataset_search.py` is
translated into a Lean function over that embedding, and the theorems below
settle the specification's claims about them.
-/

namespace BentoFed

/-- Embedding of the Python values a query AST can hold: `None`, booleans,
integers, strings and (nested) lists.  Python dictionaries do not occur
inside query ASTs in this module. -/
inductive QVal where
  | pynone : QVal
  | pybool (b : Bool) : QVal
  | pyint (n : Int) : QVal
  | pystr (s : String) : QVal
  | pylist (xs : List QVal) : QVal
deriving Repr

/-- Induction principle for `QVal` giving the hypothesis on every member of a
list node. -/
theorem QVal.ind (P : QVal → Prop) (h0 : P .pynone) (h1 : ∀ b, P (.pybool b))
    (h2 : ∀ n, P (.pyint n)) (h3 : ∀ s, P (.pystr s))
    (h4 : ∀ xs, (∀ x ∈ xs, P x) → P (.pylist xs)) : ∀ q, P q
  | .pynone => h0
  | .pybool b => h1 b
  | .pyint n => h2 n
  | .pystr s => h3 s
  | .pylist xs => h4 xs (fun x _hx => QVal.ind P h0 h1 h2 h3 h4 x)
termination_by q => sizeOf q
decreasing_by
  have hlt := List.sizeOf_lt_of_mem _hx
  simp only [QVal.pylist.sizeOf_spec]
  omega

mutual

/-- Boolean equality on `QVal`. -/
def QVal.beqFn : QVal → QVal → Bool
  | .pynone, .pynone => true
  | .pybool a, .pybool b => a == b
  | .pyint a, .pyint b => a == b
  | .pystr a, .pystr b => a == b
  | .pylist a, .pylist b => QVal.beqListFn a b
  | _, _ => false

/-- Boolean equality on lists of `QVal`. -/
def QVal.beqListFn : List QVal → List QVal → Bool
  | [], [] => true
  | a :: as, b :: bs => QVal.beqFn a b && QVal.beqListFn as bs
  | _, _ => false

end

theorem QVal.beqFn_iff : ∀ a b : QVal, (QVal.beqFn a b = true) ↔ a = b := by
  intro a
  induction a using QVal.ind with
  | h0 => intro b; cases b <;> simp [QVal.beqFn]
  | h1 x => intro b; cases b <;> simp [QVal.beqFn]
  | h2 x => intro b; cases b <;> simp [QVal.beqFn]
  | h3 x => intro b; cases b <;> simp [QVal.beqFn]
  | h4 xs ih =>
    intro b
    cases b <;> simp only [QVal.beqFn] <;> try simp
    case pylist ys =>
      induction xs generalizing ys with
      | nil => cases ys <;> simp [QVal.beqListFn]
      | cons x xs ihx =>
        cases ys with
        | nil => simp [QVal.beqListFn]
        | cons y ys =>
          simp only [QVal.beqListFn, Bool.and_eq_true]
          rw [ih x (List.mem_cons_self x xs)]
          rw [ihx (fun z hz => ih z (List.mem_cons_of_mem x hz)) ys]
          simp

instance : DecidableEq QVal := fun a b => decidable_of_iff _ (QVal.beqFn_iff a b)

abbrev FieldSpec := List String

abbrev DataTypeAndField := String × FieldSpec

/-- A Python `Dict[str, FieldSpec]` with its insertion order. -/
abbrev DictOfDataTypesAndFields := List DataTypeAndField

abbrev LinkedFieldSetList := List DictOfDataTypesAndFields

/-- `itertools.combinations(l, 2)`: all pairs `(l[i], l[j])` with `i < j`,
in lexicographic index order. -/
def combinations2 {α : Type} : List α → List (α × α)
  | [] => []
  | x :: xs => xs.map (fun y => (x, y)) ++ combinations2 xs

/-- `_linked_fields_to_join_query_fragment`: builds
`["#eq", ["#resolve", dt1, "[item]", *f1], ["#resolve", dt2, "[item]", *f2]]`. -/
def linked_fields_to_join_query_fragment (field_1 field_2 : DataTypeAndField) : QVal :=
  .pylist [.pystr "#eq",
    .pylist (.pystr "#resolve" :: .pystr field_1.1 :: .pystr "[item]" :: field_1.2.map .pystr),
    .pylist (.pystr "#resolve" :: .pystr field_2.1 :: .pystr "[item]" :: field_2.2.map .pystr)]

/-- `_linked_field_set_to_join_query_rec`.  The Python function is only called
on a non-empty tuple of pairs; we pass the head and tail explicitly. -/
def linked_field_set_to_join_query_rec :
    (DataTypeAndField × DataTypeAndField) → List (DataTypeAndField × DataTypeAndField) → QVal
  | p, [] => linked_fields_to_join_query_fragment p.1 p.2
  | p, q :: rest => .pylist [.pystr "#and",
      linked_fields_to_join_query_fragment p.1 p.2,
      linked_field_set_to_join_query_rec q rest]

/-- The surviving pairs of the first linked field set: all 2-combinations of
its entries whose two data types both belong to `data_type_set`. -/
def surviving_pairs (lfs : DictOfDataTypesAndFields) (data_type_set : List String) :
    List (DataTypeAndField × DataTypeAndField) :=
  (combinations2 lfs).filter (fun p => data_type_set.contains p.1.1 && data_type_set.contains p.2.1)

/-- `_linked_field_sets_to_join_query`.  Python's `None` return is `QVal.pynone`;
note that line 55-57 of the source embeds the recursive result verbatim as the
second operand of the `#and`, even when that result is `None`. -/
def linked_field_sets_to_join_query : LinkedFieldSetList → List String → QVal
  | [], _ => .pynone
  | lfs :: rest, data_type_set =>
    match surviving_pairs lfs data_type_set with
    | [] => .pynone
    | p :: ps =>
      match rest with
      | [] => linked_field_set_to_join_query_rec p ps
      | _ :: _ => .pylist [.pystr "#and",
          linked_field_set_to_join_query_rec p ps,
          linked_field_sets_to_join_query rest data_type_set]

/-- `_get_dataset_linked_field_sets`: keep only field maps with 2+ entries. -/
def get_dataset_linked_field_sets (linked_field_sets : LinkedFieldSetList) :
    LinkedFieldSetList :=
  linked_field_sets.filter (fun lfs => 1 < lfs.length)

/-- The single-quote character, for Python `repr` of strings. -/
def singleQuote : String := String.singleton (Char.ofNat 39)

mutual

/-- Python `repr` on the embedded values (string escaping is not modelled;
no claim exercises it). -/
def pyRepr : QVal → String
  | .pynone => "None"
  | .pybool true => "True"
  | .pybool false => "False"
  | .pyint n => toString n
  | .pystr s => singleQuote ++ s ++ singleQuote
  | .pylist xs => "[" ++ String.intercalate ", " (pyReprList xs) ++ "]"

/-- `repr` of each element of a list. -/
def pyReprList : List QVal → List String
  | [] => []
  | x :: xs => pyRepr x :: pyReprList xs

end

/-- Python `str`, as used by the f-string `f"{path}.{ri}"`. -/
def pyStrOf : QVal → String
  | .pystr s => s
  | q => pyRepr q

/-- Python truthiness of the embedded values. -/
def truthy : QVal → Bool
  | .pynone => false
  | .pybool b => b
  | .pyint n => n != 0
  | .pystr s => s != ""
  | .pylist xs => !xs.isEmpty

/-- Evaluation of `len(query[0]) == 0 or query[0][0] != "#"` on the head of a
non-empty list (line 69 of the source).  `Option.none` models a raised
`TypeError`: ints, bools and `None` have no `len`. -/
def head_not_tag : QVal → Option Bool
  | .pystr s => some (decide (s.data.head? ≠ some (Char.ofNat 35)))
  | .pylist xs => some (decide (xs.head? ≠ some (.pystr "#")))
  | _ => Option.none

mutual

/-- `_augment_resolves`.  `Option.none` models an uncaught Python error
(`len(query[0])` raises `TypeError` when the head of a non-empty list is an
int, bool or `None`). -/
def augment_resolves : QVal → List String → Option QVal
  | .pylist [], _ => some (.pylist [])
  | .pylist (h :: t), pfx =>
    match head_not_tag h with
    | Option.none => Option.none
    | some true => some (.pylist (h :: t))
    | some false =>
      if h = .pystr "#resolve" then
        some (.pylist (.pystr "#resolve" :: (pfx.map QVal.pystr ++ t)))
      else
        (augment_resolves_list t pfx).map (fun ts => QVal.pylist (h :: ts))
  | q, _ => some q

/-- `_augment_resolves` mapped over the operands `query[1:]`; errors
propagate. -/
def augment_resolves_list : List QVal → List String → Option (List QVal)
  | [], _ => some []
  | q :: qs, pfx =>
    match augment_resolves q pfx, augment_resolves_list qs pfx with
    | some a, some as => some (a :: as)
    | _, _ => Option.none

end

/-- The accumulator loop inside `_get_array_resolve_paths` for a `#resolve`
node: `path` starts at `"_root"`; at each `"[item]"` segment the current
`path` is appended to the output, and every segment (markers included) then
extends `path`. -/
def resolve_path_loop : String → List QVal → List String
  | _, [] => []
  | path, ri :: rest =>
    (if ri = .pystr "[item]" then [path] else []) ++
      resolve_path_loop (path ++ "." ++ pyStrOf ri) rest

mutual

/-- `_get_array_resolve_paths`: nodes that are not lists of length > 1 give
`[]`; a `#resolve` node runs the accumulator loop over its segments; any
other list concatenates the results of its elements after the head. -/
def get_array_resolve_paths : QVal → List String
  | .pylist (q0 :: q1 :: qs) =>
    if q0 = .pystr "#resolve" then resolve_path_loop "_root" (q1 :: qs)
    else get_array_resolve_paths_list (q1 :: qs)
  | _ => []

/-- Concatenated collection over `query[1:]`. -/
def get_array_resolve_paths_list : List QVal → List String
  | [] => []
  | e :: es => get_array_resolve_paths e ++ get_array_resolve_paths_list es

end

/-- The loop of `_combine_join_and_data_type_queries`: left fold over the
data-type queries, each one augmented with the prefix `(dt, "[item]")` and
conjoined in front of the running join query. -/
def combine_loop : QVal → List (String × QVal) → Option QVal
  | jq, [] => some jq
  | jq, (dt, q) :: rest =>
    match augment_resolves q [dt, "[item]"] with
    | Option.none => Option.none
    | some a => combine_loop (.pylist [.pystr "#and", a, jq]) rest

/-- `_combine_join_and_data_type_queries`; `Option.none` models an error
propagated from `_augment_resolves`. -/
def combine_join_and_data_type_queries (join_query : QVal)
    (data_type_queries : List (String × QVal)) : Option QVal :=
  if join_query = .pynone then some .pynone
  else combine_loop join_query data_type_queries

/-- Python `d[k]` on an insertion-ordered dictionary (as an `Option`). -/
def dictGet {α : Type} : List (String × α) → String → Option α
  | [], _ => Option.none
  | (k1, v1) :: rest, k => if k1 = k then some v1 else dictGet rest k

/-- Python `d[k] = v` on an insertion-ordered dictionary: replace in place if
the key exists, otherwise append at the end. -/
def dictSet {α : Type} : List (String × α) → String → α → List (String × α)
  | [], k, v => [(k, v)]
  | (k1, v1) :: rest, k, v =>
    if k1 = k then (k1, v) :: rest else (k1, v1) :: dictSet rest k v

/-- Python `k in d`. -/
def dictHasKey {α : Type} (d : List (String × α)) (k : String) : Bool :=
  d.any (fun p => p.1 == k)

/-- Python `d[k].extend(v)`: extend the entry of `k` in place. -/
def dictExtend (d : List (String × List QVal)) (k : String) (v : List QVal) :
    List (String × List QVal) :=
  d.map (fun p => if p.1 = k then (p.1, p.2 ++ v) else p)

/-- A value stored under `dataset_object_schema["properties"]`:
`bareArray` is `{"type": "array"}` (line 257); `arrayItems (some s)` is
`{"type": "array", "items": s}` with `s` the table's schema, and
`arrayItems Option.none` is the same shape with the empty object `{}` as item
schema (lines 180-183). -/
inductive SchemaEntry where
  | bareArray : SchemaEntry
  | arrayItems (items : Option QVal) : SchemaEntry
deriving DecidableEq, Repr

/-- A table-ownership record from the dataset metadata. -/
structure TableOwnership where
  service_artifact : String
  table_id : String
deriving DecidableEq, Repr

/-- A table record fetched from the owning data service. -/
structure TableRecord where
  data_type : String
  schema : QVal
  id : String
deriving DecidableEq, Repr

/-- The parts of the `dataset` argument that `run_search_on_dataset` reads:
its table ownerships and its linked field sets (each reduced to its `fields`
map). -/
structure Dataset where
  table_ownership : List TableOwnership
  linked_field_sets : LinkedFieldSetList
deriving DecidableEq, Repr

/-- One search request issued by `_table_search_worker` to a peer service. -/
structure SearchRequest where
  service_artifact : String
  table_id : String
  privateMode : Bool
  query : QVal
deriving DecidableEq, Repr

/-- The shared state mutated by the search workers: the
`dataset_object_schema["properties"]` dictionary, the `dataset_results`
accumulator, and (instrumentation of the model) the log of peer search
requests issued. -/
structure SearchState where
  schema_properties : List (String × SchemaEntry)
  dataset_results : List (String × List QVal)
  fetch_log : List SearchRequest
deriving DecidableEq, Repr

/-- The `(ownership, record)` pairs collected by the table-definition worker
pool (lines 230-238), with the per-table fetch abstracted by the
`fetchTable` oracle. -/
def table_pairs (fetchTable : TableOwnership → TableRecord) (dataset : Dataset) :
    List (TableOwnership × TableRecord) :=
  dataset.table_ownership.map (fun t => (t, fetchTable t))

/-- `table_data_types` (line 241): the set of data types of the fetched
table records, used only through membership tests. -/
def fetched_table_data_types (fetchTable : TableOwnership → TableRecord)
    (dataset : Dataset) : List String :=
  (table_pairs fetchTable dataset).map (fun p => p.2.data_type)

/-- The body of `_table_search_worker` for one dequeued table pair.  The two
oracles stand for the peer `search` endpoints: `fetchPriv` returns the
`results` field of a (well-formed) private-mode response, `fetchPub` the raw
JSON value of a public-mode response, whose truthiness alone is used. -/
def table_search_step (fetchPriv : SearchRequest → List QVal)
    (fetchPub : SearchRequest → QVal) (dataset_join_query : QVal)
    (data_type_queries : List (String × QVal)) (include_internal_results : Bool)
    (st : SearchState) (pair : TableOwnership × TableRecord) : SearchState :=
  let table_data_type := pair.2.data_type
  let is_querying_data_type := dictHasKey data_type_queries table_data_type
  let priv : Bool := !(dataset_join_query == .pynone) || include_internal_results
  let props :=
    if (!(dataset_join_query == .pynone) && !(dictHasKey st.schema_properties table_data_type)) = true then
      dictSet st.schema_properties table_data_type
        (.arrayItems (if is_querying_data_type then some pair.2.schema else Option.none))
    else st.schema_properties
  if is_querying_data_type = false then { st with schema_properties := props }
  else
    let req : SearchRequest :=
      { service_artifact := pair.1.service_artifact, table_id := pair.2.id,
        privateMode := priv,
        query := ((dictGet data_type_queries table_data_type).getD .pynone) }
    let results :=
      if priv = true then fetchPriv req
      else if truthy (fetchPub req) then [fetchPub req] else []
    let dres :=
      if dictHasKey st.dataset_results table_data_type then
        dictExtend st.dataset_results table_data_type results
      else st.dataset_results ++ [(table_data_type, results)]
    { schema_properties := props, dataset_results := dres,
      fetch_log := st.fetch_log ++ [req] }

/-- The loop over queried data types with no backing table (lines 244-260):
threads the schema-properties dictionary and the `excluded_data_types` set;
`Except.error` carries the mutated schema properties at the moment of the
short-circuiting `return` (the only state the early return leaves behind). -/
def exclude_no_table_data_types (table_data_types : List String) :
    List (String × QVal) → List (String × SchemaEntry) → List String →
    Except (List (String × SchemaEntry)) (List (String × SchemaEntry) × List String)
  | [], props, excluded => .ok (props, excluded)
  | (dt, dt_q) :: rest, props, excluded =>
    if table_data_types.contains dt then
      exclude_no_table_data_types table_data_types rest props excluded
    else if dt_q = .pybool true then
      exclude_no_table_data_types table_data_types rest
        (dictSet props dt .bareArray) (excluded ++ [dt])
    else .error props

/-- The final value of `run_search_on_dataset`: the returned triple together
with the final state of the caller-supplied schema object (mutated in place
by the Python code) and the log of peer search requests. -/
structure RunResult where
  dataset_results : List (String × List QVal)
  join_query : QVal
  ic_paths_to_filter : List String
  schema_properties : List (String × SchemaEntry)
  fetch_log : List SearchRequest
deriving DecidableEq, Repr

/-- `run_search_on_dataset`.  Network nondeterminism is abstracted by the
oracles: `fetchTable` is the table-definition fetch of the discovery pool,
`fetchPriv`/`fetchPub` the peer search endpoints.  Worker interleaving is
modelled as a left fold in queue order (the claims settled below are
insensitive to the interleaving).  `Option.none` models an uncaught error
propagated out of `_augment_resolves` during query combination. -/
def run_search_on_dataset (fetchTable : TableOwnership → TableRecord)
    (fetchPriv : SearchRequest → List QVal) (fetchPub : SearchRequest → QVal)
    (dataset_object_schema_properties : List (String × SchemaEntry))
    (dataset : Dataset) (join_query : QVal)
    (data_type_queries : List (String × QVal))
    (include_internal_results : Bool) : Option RunResult :=
  let linked_field_sets := get_dataset_linked_field_sets dataset.linked_field_sets
  let table_ownerships_and_records := table_pairs fetchTable dataset
  let table_data_types := fetched_table_data_types fetchTable dataset
  match exclude_no_table_data_types table_data_types data_type_queries
      dataset_object_schema_properties [] with
  | .error props =>
    some { dataset_results := data_type_queries.map (fun p => (p.1, [])),
           join_query := .pynone, ic_paths_to_filter := [],
           schema_properties := props, fetch_log := [] }
  | .ok (props, excluded) =>
    let jq :=
      if join_query = .pynone then
        linked_field_sets_to_join_query linked_field_sets
          ((data_type_queries.map Prod.fst).filter (fun d => ¬ excluded.contains d))
      else join_query
    let ic_paths := if include_internal_results then get_array_resolve_paths jq else []
    match combine_join_and_data_type_queries jq data_type_queries with
    | Option.none => Option.none
    | some jq2 =>
      let st := table_ownerships_and_records.foldl
        (table_search_step fetchPriv fetchPub jq2 data_type_queries include_internal_results)
        { schema_properties := props, dataset_results := [], fetch_log := [] }
      some { dataset_results := st.dataset_results, join_query := jq2,
             ic_paths_to_filter := ic_paths,
             schema_properties := st.schema_properties, fetch_log := st.fetch_log }

/-! ## Shared dictionary lemmas -/

theorem dictGet_dictSet_self {α : Type} (d : List (String × α)) (k : String) (v : α) :
    dictGet (dictSet d k v) k = some v := by
  induction d with
  | nil => simp [dictSet, dictGet]
  | cons p rest ih =>
    obtain ⟨k1, v1⟩ := p
    by_cases h : k1 = k <;> simp [dictSet, dictGet, h, ih]

theorem dictGet_dictSet_other {α : Type} (d : List (String × α)) (k k2 : String) (v : α)
    (h : k2 ≠ k) : dictGet (dictSet d k v) k2 = dictGet d k2 := by
  have hk : ¬ k = k2 := fun hh => h hh.symm
  induction d with
  | nil => simp [dictSet, dictGet, hk]
  | cons p rest ih =>
    obtain ⟨k1, v1⟩ := p
    by_cases h1 : k1 = k <;> by_cases h2 : k1 = k2 <;> simp_all [dictSet, dictGet]

/-! ## Claim C2: the array-resolve path accumulator -/

/-- Specification-side definition: the dotted rendering of a list of segments
appended after an initial path. -/
def dotted (path : String) (segs : List QVal) : String :=
  segs.foldl (fun p ri => p ++ "." ++ pyStrOf ri) path

/-- Specification-side definition: for each occurrence of the `"[item]"`
marker in the segment list, the list of segments strictly before that
occurrence (earlier markers included). -/
def markerPaths : List QVal → List (List QVal)
  | [] => []
  | ri :: rest =>
    (if ri = .pystr "[item]" then [[]] else []) ++
      (markerPaths rest).map (fun l => ri :: l)

theorem resolve_path_loop_eq (segs : List QVal) :
    ∀ path, resolve_path_loop path segs = (markerPaths segs).map (dotted path) := by
  induction segs with
  | nil => intro path; simp [resolve_path_loop, markerPaths]
  | cons ri rest ih =>
    intro path
    simp only [resolve_path_loop, markerPaths, List.map_append, List.map_map]
    rw [ih]
    by_cases h : ri = QVal.pystr "[item]" <;>
      simp [h, dotted, Function.comp_def, List.foldl_cons]

/-- C2 counterexample: the claim states
`collect(["#resolve","A","[item]","x","[item]","y"]) = ["_root.A", "_root.A.x"]`,
but on the code the accumulated string keeps earlier `"[item]"` markers, so
the second collected path is `"_root.A.[item].x"`. -/
theorem claim_C2_counterexample :
    get_array_resolve_paths (.pylist [.pystr "#resolve", .pystr "A", .pystr "[item]",
        .pystr "x", .pystr "[item]", .pystr "y"]) = ["_root.A", "_root.A.[item].x"] ∧
    get_array_resolve_paths (.pylist [.pystr "#resolve", .pystr "A", .pystr "[item]",
        .pystr "x", .pystr "[item]", .pystr "y"]) ≠ ["_root.A", "_root.A.x"] := by
  constructor <;> decide

/-- C2 (amended): for every Resolve node, `collect` walks the segments left to
right keeping an accumulating dotted string rooted at `"_root"`; at each
array-item marker segment it appends the string accumulated from all segments
seen so far, excluding only the current marker (earlier markers remain part of
the accumulator); hence `collect(["#resolve","A","[item]","x"]) = ["_root.A"]`
and `collect(["#resolve","A","[item]","x","[item]","y"]) =
["_root.A", "_root.A.[item].x"]`. -/
theorem claim_C2_amended :
    (∀ segs : List QVal,
      get_array_resolve_paths (.pylist (.pystr "#resolve" :: segs)) =
        (markerPaths segs).map (dotted "_root")) ∧
    get_array_resolve_paths (.pylist [.pystr "#resolve", .pystr "A", .pystr "[item]",
        .pystr "x"]) = ["_root.A"] ∧
    get_array_resolve_paths (.pylist [.pystr "#resolve", .pystr "A", .pystr "[item]",
        .pystr "x", .pystr "[item]", .pystr "y"]) = ["_root.A", "_root.A.[item].x"] := by
  refine ⟨?_, by decide, by decide⟩
  intro segs
  match segs with
  | [] => simp [get_array_resolve_paths, markerPaths]
  | q1 :: qs =>
    simp only [get_array_resolve_paths, if_pos rfl]
    exact resolve_path_loop_eq (q1 :: qs) "_root"

/-! ## Claim C6: totality of `_augment_resolves` -/

mutual

/-- The exact domain on which `_augment_resolves` returns normally: a
non-empty list node whose head is an int, bool or `None` makes `len(query[0])`
raise `TypeError`; recursion descends into the operands of tagged non-resolve
nodes only. -/
def aug_safe : QVal → Bool
  | .pylist [] => true
  | .pylist (h :: t) =>
    match head_not_tag h with
    | Option.none => false
    | some true => true
    | some false => if h = .pystr "#resolve" then true else aug_safe_list t

  | _ => true

/-- `aug_safe` over a list of operands. -/
def aug_safe_list : List QVal → Bool
  | [] => true
  | q :: qs => aug_safe q && aug_safe_list qs

end

theorem augment_resolves_list_isSome (t : List QVal)
    (ih : ∀ x ∈ t, ∀ pfx : List String, (augment_resolves x pfx).isSome = aug_safe x) :
    ∀ pfx : List String, (augment_resolves_list t pfx).isSome = aug_safe_list t := by
  induction t with
  | nil => intro pfx; simp [augment_resolves_list, aug_safe_list]
  | cons q qs ihq =>
    intro pfx
    have h1 := ih q (List.mem_cons_self q qs) pfx
    have h2 := ihq (fun x hx => ih x (List.mem_cons_of_mem q hx)) pfx
    simp only [augment_resolves_list, aug_safe_list]
    cases hq : augment_resolves q pfx <;> cases hqs : augment_resolves_list qs pfx <;>
      simp_all

theorem augment_resolves_isSome (q : QVal) :
    ∀ pfx : List String, (augment_resolves q pfx).isSome = aug_safe q := by
  induction q using QVal.ind with
  | h0 => intro pfx; simp [augment_resolves, aug_safe]
  | h1 b => intro pfx; simp [augment_resolves, aug_safe]
  | h2 n => intro pfx; simp [augment_resolves, aug_safe]
  | h3 s => intro pfx; simp [augment_resolves, aug_safe]
  | h4 xs ih =>
    intro pfx
    match xs with
    | [] => simp [augment_resolves, aug_safe]
    | h :: t =>
      have hlist := augment_resolves_list_isSome t
        (fun x hx => ih x (List.mem_cons_of_mem h hx)) pfx
      simp only [augment_resolves, aug_safe]
      cases hh : head_not_tag h with
      | none => simp
      | some b =>
        cases b with
        | true => simp
        | false =>
          by_cases hr : h = QVal.pystr "#resolve" <;> simp [hr, hlist]

/-- C6 counterexample: the claim asserts `_augment_resolves` is total on every
query value, including lists whose head is a number; but on
`[1, 2]` the guard `len(query[0])` raises `TypeError` (modelled by
`Option.none`). -/
theorem claim_C6_counterexample :
    augment_resolves (.pylist [.pyint 1, .pyint 2]) ["a"] = Option.none := by
  decide

/-- C6 (amended): `_augment_resolves` returns a value (raising no error and
always terminating) exactly on queries in which every traversed non-empty
list node has a head admitting `len` — a string or a list; literals, empty
lists and lists with a nested-list head are fine, but a non-empty list whose
head is a number, boolean or `None` makes `len(query[0])` raise `TypeError`,
and this propagates through operand recursion. -/
theorem claim_C6_amended (q : QVal) (pfx : List String) :
    (augment_resolves q pfx).isSome = aug_safe q :=
  augment_resolves_isSome q pfx

/-! ## Claim C5: composing two resolve augmentations -/

theorem augment_resolves_comp_list (t : List QVal)
    (ih : ∀ x ∈ t, ∀ p1 p2 : List String,
      (augment_resolves x p1).bind (fun r => augment_resolves r p2) =
        augment_resolves x (p2 ++ p1)) :
    ∀ p1 p2 : List String,
      (augment_resolves_list t p1).bind (fun ts => augment_resolves_list ts p2) =
        augment_resolves_list t (p2 ++ p1) := by
  induction t with
  | nil => intro p1 p2; simp [augment_resolves_list]
  | cons q qs ihq =>
    intro p1 p2
    have h1 := (ih q (List.mem_cons_self q qs) p1 p2).symm
    have h2 := (ihq (fun x hx => ih x (List.mem_cons_of_mem q hx)) p1 p2).symm
    simp only [augment_resolves_list, h1, h2]
    cases hq : augment_resolves q p1 <;> cases hqs : augment_resolves_list qs p1 <;>
      simp [augment_resolves_list]

theorem augment_resolves_comp (q : QVal) :
    ∀ p1 p2 : List String,
      (augment_resolves q p1).bind (fun r => augment_resolves r p2) =
        augment_resolves q (p2 ++ p1) := by
  induction q using QVal.ind with
  | h0 => intro p1 p2; simp [augment_resolves]
  | h1 b => intro p1 p2; simp [augment_resolves]
  | h2 n => intro p1 p2; simp [augment_resolves]
  | h3 s => intro p1 p2; simp [augment_resolves]
  | h4 xs ih =>
    intro p1 p2
    match xs with
    | [] => simp [augment_resolves]
    | h :: t =>
      have hlist := augment_resolves_comp_list t
        (fun x hx => ih x (List.mem_cons_of_mem h hx)) p1 p2
      cases hh : head_not_tag h with
      | none => simp [augment_resolves, hh]
      | some b =>
        cases b with
        | true => simp [augment_resolves, hh]
        | false =>
          by_cases hr : h = QVal.pystr "#resolve"
          · subst hr
            have hres : head_not_tag (QVal.pystr "#resolve") = some false := by decide
            simp [augment_resolves, hres, List.map_append, List.append_assoc]
          · cases hts : augment_resolves_list t p1 with
            | none =>
              rw [hts] at hlist
              simp only [Option.bind] at hlist
              simp [augment_resolves, hh, hr, hts, ← hlist]
            | some ts =>
              rw [hts] at hlist
              simp only [Option.some_bind] at hlist
              simp [augment_resolves, hh, hr, hts, ← hlist]

theorem augment_resolves_list_length (t : List QVal) :
    ∀ (pfx : List String) (ts : List QVal),
      augment_resolves_list t pfx = some ts → ts.length = t.length := by
  induction t with
  | nil => intro pfx ts h; simp [augment_resolves_list] at h; simp [← h]
  | cons q qs ih =>
    intro pfx ts h
    simp only [augment_resolves_list] at h
    cases hq : augment_resolves q pfx <;> rw [hq] at h <;>
      cases hqs : augment_resolves_list qs pfx <;> rw [hqs] at h <;> simp at h
    rw [← h]
    simp [ih pfx _ hqs]

/-- C5 counterexample: augmenting `["#resolve","x"]` with `("a",)` and then
`("b",)` yields path `["b","a","x"]`, while a single augmentation with
`("a","b")` yields `["a","b","x"]`; the two are not structurally equal, so
`augment(augment(q, p1), p2) = augment(q, p1 ++ p2)` fails. -/
theorem claim_C5_counterexample :
    (augment_resolves (.pylist [.pystr "#resolve", .pystr "x"]) ["a"]).bind
        (fun r => augment_resolves r ["b"]) =
      some (.pylist [.pystr "#resolve", .pystr "b", .pystr "a", .pystr "x"]) ∧
    augment_resolves (.pylist [.pystr "#resolve", .pystr "x"]) (["a"] ++ ["b"]) =
      some (.pylist [.pystr "#resolve", .pystr "a", .pystr "b", .pystr "x"]) ∧
    (augment_resolves (.pylist [.pystr "#resolve", .pystr "x"]) ["a"]).bind
        (fun r => augment_resolves r ["b"]) ≠
      augment_resolves (.pylist [.pystr "#resolve", .pystr "x"]) (["a"] ++ ["b"]) := by
  exact ⟨by decide, by decide, by decide⟩

/-- C5 (amended): augmenting with `p1` and then `p2` equals one augmentation
with `p2 ++ p1` (the second prefix ends up in front), composition taken
through the error monad; and for every non-resolve node that augments
successfully, the tag and the operand count are preserved. -/
theorem claim_C5_amended :
    (∀ (q : QVal) (p1 p2 : List String),
      (augment_resolves q p1).bind (fun r => augment_resolves r p2) =
        augment_resolves q (p2 ++ p1)) ∧
    (∀ (h : QVal) (t : List QVal) (pfx : List String) (r : QVal),
      h ≠ .pystr "#resolve" → augment_resolves (.pylist (h :: t)) pfx = some r →
      ∃ ts : List QVal, r = .pylist (h :: ts) ∧ ts.length = t.length) := by
  constructor
  · exact fun q => augment_resolves_comp q
  · intro h t pfx r hr haug
    cases hh : head_not_tag h with
    | none => simp [augment_resolves, hh] at haug
    | some b =>
      cases b with
      | true =>
        simp only [augment_resolves, hh, Option.some.injEq] at haug
        exact ⟨t, haug.symm, rfl⟩
      | false =>
        simp only [augment_resolves, hh, if_neg hr] at haug
        cases hts : augment_resolves_list t pfx <;> rw [hts] at haug <;> simp at haug
        exact ⟨_, haug.symm, augment_resolves_list_length t pfx _ hts⟩

/-- C5 witness: the amended theorem applied at `q = ["#resolve","x"]`,
`p1 = ("a",)`, `p2 = ("b",)` for composition, and at the conjunction node
`["#and", True]` for tag/arity preservation. -/
theorem claim_C5_witness :
    ((augment_resolves (.pylist [.pystr "#resolve", .pystr "x"]) ["a"]).bind
        (fun r => augment_resolves r ["b"]) =
      augment_resolves (.pylist [.pystr "#resolve", .pystr "x"]) (["b"] ++ ["a"])) ∧
    (∃ ts : List QVal,
      QVal.pylist [.pystr "#and", .pybool true] = .pylist (.pystr "#and" :: ts) ∧
      ts.length = [QVal.pybool true].length) := by
  constructor
  · exact claim_C5_amended.1 (.pylist [.pystr "#resolve", .pystr "x"]) ["a"] ["b"]
  · exact claim_C5_amended.2 (.pystr "#and") [.pybool true] ["p"]
      (.pylist [.pystr "#and", .pybool true]) (by decide) (by decide)

/-! ## Claim C3: join synthesis over several linked field sets -/

/-- C3 counterexample: with linked field sets
`[{A: x, B: y}, {C: z, D: w}]` and data type set `{A, B}`, the second set
produces zero surviving pairs, yet it is not dropped: the code returns
`["#and", <eq-chain of the first set>, None]` with the absent value embedded
as an operand. -/
theorem claim_C3_counterexample :
    linked_field_sets_to_join_query
        [[("A", ["x"]), ("B", ["y"])], [("C", ["z"]), ("D", ["w"])]] ["A", "B"] =
      .pylist [.pystr "#and",
        .pylist [.pystr "#eq",
          .pylist [.pystr "#resolve", .pystr "A", .pystr "[item]", .pystr "x"],
          .pylist [.pystr "#resolve", .pystr "B", .pystr "[item]", .pystr "y"]],
        .pynone] ∧
    linked_field_sets_to_join_query [[("C", ["z"]), ("D", ["w"])]] ["A", "B"] =
      .pynone := by
  exact ⟨by decide, by decide⟩

/-- C3 (amended): if the first linked field set produces zero surviving
pairs, `build` returns absent immediately, regardless of the remaining sets;
if the first set produces at least one pair and more sets remain, `build`
conjoins the first set's Equality chain with the recursive result for the
remaining sets embedded verbatim — including the absent (`None`) value when
the remaining sets produce no pairs — rather than dropping pairless sets. -/
theorem claim_C3_amended :
    (∀ (lfs1 : DictOfDataTypesAndFields) (rest : LinkedFieldSetList)
       (dts : List String),
      surviving_pairs lfs1 dts = [] →
      linked_field_sets_to_join_query (lfs1 :: rest) dts = .pynone) ∧
    (∀ (lfs1 lfs2 : DictOfDataTypesAndFields) (rest : LinkedFieldSetList)
       (dts : List String) (p : DataTypeAndField × DataTypeAndField)
       (ps : List (DataTypeAndField × DataTypeAndField)),
      surviving_pairs lfs1 dts = p :: ps →
      linked_field_sets_to_join_query (lfs1 :: lfs2 :: rest) dts =
        .pylist [.pystr "#and", linked_field_set_to_join_query_rec p ps,
                 linked_field_sets_to_join_query (lfs2 :: rest) dts]) := by
  constructor
  · intro lfs1 rest dts h
    simp [linked_field_sets_to_join_query, h]
  · intro lfs1 lfs2 rest dts p ps h
    simp [linked_field_sets_to_join_query, h]

/-- C3 witness: the amended theorem applied at the linked field sets
`{A: x, B: y}` and `{C: z, D: w}` with data type set `{A, B}`, in both
orders. -/
theorem claim_C3_witness :
    linked_field_sets_to_join_query
        [[("C", ["z"]), ("D", ["w"])], [("A", ["x"]), ("B", ["y"])]] ["A", "B"] =
      .pynone ∧
    linked_field_sets_to_join_query
        [[("A", ["x"]), ("B", ["y"])], [("C", ["z"]), ("D", ["w"])]] ["A", "B"] =
      .pylist [.pystr "#and",
        linked_field_set_to_join_query_rec (("A", ["x"]), ("B", ["y"])) [],
        linked_field_sets_to_join_query [[("C", ["z"]), ("D", ["w"])]] ["A", "B"]] := by
  constructor
  · exact claim_C3_amended.1 [("C", ["z"]), ("D", ["w"])]
      [[("A", ["x"]), ("B", ["y"])]] ["A", "B"] (by decide)
  · exact claim_C3_amended.2 [("A", ["x"]), ("B", ["y"])] [("C", ["z"]), ("D", ["w"])]
      [] ["A", "B"] (("A", ["x"]), ("B", ["y"])) [] (by decide)

/-! ## Claim C9: every resolve in a synthesized join query is data-type scoped -/

mutual

/-- Specification-side predicate: every `#resolve` node occurring in the
value has argument list `[dt, "[item]"] ++ fields` for some entry
`(dt, fields)` of `entries` whose data type `dt` belongs to
`data_type_set`. -/
def resolves_scoped (data_type_set : List String) (entries : List DataTypeAndField) :
    QVal → Bool
  | .pylist (h :: t) =>
    if h = .pystr "#resolve" then
      entries.any (fun e => data_type_set.contains e.1 &&
        decide (t = .pystr e.1 :: .pystr "[item]" :: e.2.map QVal.pystr))
    else resolves_scoped_list data_type_set entries (h :: t)
  | .pylist [] => true
  | _ => true

/-- `resolves_scoped` over every element of a list. -/
def resolves_scoped_list (data_type_set : List String) (entries : List DataTypeAndField) :
    List QVal → Bool
  | [] => true
  | x :: xs => resolves_scoped data_type_set entries x &&
      resolves_scoped_list data_type_set entries xs

end

theorem mem_combinations2 {α : Type} (l : List α) (p : α × α)
    (h : p ∈ combinations2 l) : p.1 ∈ l ∧ p.2 ∈ l := by
  induction l with
  | nil => simp [combinations2] at h
  | cons x xs ih =>
    simp only [combinations2, List.mem_append, List.mem_map] at h
    rcases h with ⟨y, hy, rfl⟩ | h
    · exact ⟨List.mem_cons_self _ _, List.mem_cons_of_mem _ hy⟩
    · obtain ⟨h1, h2⟩ := ih h
      exact ⟨List.mem_cons_of_mem _ h1, List.mem_cons_of_mem _ h2⟩

theorem resolves_scoped_resolve (dts : List String) (entries : List DataTypeAndField)
    (f : DataTypeAndField) (h : f ∈ entries) (hd : dts.contains f.1 = true) :
    resolves_scoped dts entries
      (.pylist (.pystr "#resolve" :: .pystr f.1 :: .pystr "[item]" :: f.2.map QVal.pystr)) =
      true := by
  simp only [resolves_scoped, if_true, List.any_eq_true, Bool.and_eq_true]
  exact ⟨f, h, hd, by simp⟩

theorem resolves_scoped_and2 (dts : List String) (entries : List DataTypeAndField)
    (tag : String) (htag : ¬ QVal.pystr tag = QVal.pystr "#resolve") (a b : QVal)
    (ha : resolves_scoped dts entries a = true)
    (hb : resolves_scoped dts entries b = true) :
    resolves_scoped dts entries (.pylist [.pystr tag, a, b]) = true := by
  simp only [resolves_scoped, resolves_scoped_list, if_neg htag, ha, hb]
  simp [resolves_scoped]

theorem resolves_scoped_fragment (dts : List String) (entries : List DataTypeAndField)
    (f1 f2 : DataTypeAndField) (h1 : f1 ∈ entries) (h2 : f2 ∈ entries)
    (hd1 : dts.contains f1.1 = true) (hd2 : dts.contains f2.1 = true) :
    resolves_scoped dts entries (linked_fields_to_join_query_fragment f1 f2) = true := by
  exact resolves_scoped_and2 dts entries "#eq" (by decide) _ _
    (resolves_scoped_resolve dts entries f1 h1 hd1)
    (resolves_scoped_resolve dts entries f2 h2 hd2)

theorem resolves_scoped_rec (dts : List String) (entries : List DataTypeAndField)
    (p : DataTypeAndField × DataTypeAndField)
    (ps : List (DataTypeAndField × DataTypeAndField))
    (hall : ∀ pr ∈ p :: ps, pr.1 ∈ entries ∧ pr.2 ∈ entries ∧
      dts.contains pr.1.1 = true ∧ dts.contains pr.2.1 = true) :
    resolves_scoped dts entries (linked_field_set_to_join_query_rec p ps) = true := by
  induction ps generalizing p with
  | nil =>
    obtain ⟨m1, m2, d1, d2⟩ := hall p (List.mem_cons_self p [])
    exact resolves_scoped_fragment dts entries p.1 p.2 m1 m2 d1 d2
  | cons q qs ih =>
    obtain ⟨m1, m2, d1, d2⟩ := hall p (List.mem_cons_self p (q :: qs))
    have hfrag := resolves_scoped_fragment dts entries p.1 p.2 m1 m2 d1 d2
    have hrest := ih q (fun pr hpr => hall pr (List.mem_cons_of_mem p hpr))
    simp only [linked_field_set_to_join_query_rec]
    exact resolves_scoped_and2 dts entries "#and" (by decide) _ _ hfrag hrest

theorem resolves_scoped_build (dts : List String) :
    ∀ (lfsList : LinkedFieldSetList) (entries : List DataTypeAndField),
      (∀ lfs ∈ lfsList, ∀ e ∈ lfs, e ∈ entries) →
      resolves_scoped dts entries (linked_field_sets_to_join_query lfsList dts) = true := by
  intro lfsList
  induction lfsList with
  | nil => intro entries h; simp [linked_field_sets_to_join_query, resolves_scoped]
  | cons lfs rest ih =>
    intro entries h
    cases hsp : surviving_pairs lfs dts with
    | nil => simp [linked_field_sets_to_join_query, hsp, resolves_scoped]
    | cons p ps =>
      have hall : ∀ pr ∈ p :: ps, pr.1 ∈ entries ∧ pr.2 ∈ entries ∧
          dts.contains pr.1.1 = true ∧ dts.contains pr.2.1 = true := by
        intro pr hpr
        rw [← hsp] at hpr
        simp only [surviving_pairs, List.mem_filter, Bool.and_eq_true] at hpr
        obtain ⟨hmem, hc1, hc2⟩ := hpr
        obtain ⟨m1, m2⟩ := mem_combinations2 lfs pr hmem
        exact ⟨h lfs (List.mem_cons_self lfs rest) _ m1,
               h lfs (List.mem_cons_self lfs rest) _ m2, hc1, hc2⟩
      have hrec := resolves_scoped_rec dts entries p ps hall
      cases rest with
      | nil => simp only [linked_field_sets_to_join_query, hsp]; exact hrec
      | cons lfs2 rest2 =>
        have hrest := ih entries
          (fun l hl e he => h l (List.mem_cons_of_mem lfs hl) e he)
        simp only [linked_field_sets_to_join_query, hsp]
        exact resolves_scoped_and2 dts entries "#and" (by decide) _ _ hrec hrest

/-- C9: every `#resolve` node occurring in a non-absent join query produced
by `build(linkedFieldSets, dataTypeSet)` has a path whose first segment is a
data type belonging to `dataTypeSet`, whose second segment is `"[item]"`, and
whose remainder is the field path of an entry of the linked field sets. -/
theorem claim_C9 (lfsList : LinkedFieldSetList) (dts : List String)
    (_hne : linked_field_sets_to_join_query lfsList dts ≠ .pynone) :
    resolves_scoped dts lfsList.flatten
      (linked_field_sets_to_join_query lfsList dts) = true :=
  resolves_scoped_build dts lfsList lfsList.flatten
    (fun lfs hl _e he => List.mem_flatten.mpr ⟨lfs, hl, he⟩)

/-- C9 witness: the theorem applied at the single linked field set
`{A: x, B: y}` with data type set `{A, B}`. -/
theorem claim_C9_witness :
    linked_field_sets_to_join_query [[("A", ["x"]), ("B", ["y"])]] ["A", "B"] ≠
        .pynone ∧
    resolves_scoped ["A", "B"] [[("A", ["x"]), ("B", ["y"])]].flatten
      (linked_field_sets_to_join_query [[("A", ["x"]), ("B", ["y"])]] ["A", "B"]) =
      true :=
  ⟨by decide, claim_C9 [[("A", ["x"]), ("B", ["y"])]] ["A", "B"] (by decide)⟩

/-! ## Claim C4: the orchestrator short-circuit -/

theorem exclude_err_of_offender (tdts : List String) :
    ∀ (dtq : List (String × QVal)) (props : List (String × SchemaEntry))
      (excluded : List String),
      (∃ p ∈ dtq, tdts.contains p.1 = false ∧ p.2 ≠ .pybool true) →
      ∃ props2,
        exclude_no_table_data_types tdts dtq props excluded = .error props2 := by
  intro dtq
  induction dtq with
  | nil => intro props excluded h; simp at h
  | cons hd rest ih =>
    intro props excluded h
    obtain ⟨p, hp, hc, hq⟩ := h
    obtain ⟨dt, q⟩ := hd
    simp only [exclude_no_table_data_types]
    by_cases h1 : tdts.contains dt = true
    · rw [if_pos h1]
      apply ih
      rcases List.mem_cons.mp hp with heq | hmem
      · rw [heq] at hc; rw [h1] at hc; simp at hc
      · exact ⟨p, hmem, hc, hq⟩
    · rw [if_neg h1]
      by_cases h2 : q = .pybool true
      · rw [if_pos h2]
        apply ih
        rcases List.mem_cons.mp hp with heq | hmem
        · exfalso; apply hq; rw [heq]; simp; exact h2
        · exact ⟨p, hmem, hc, hq⟩
      · rw [if_neg h2]; exact ⟨props, rfl⟩

/-- C4: whenever some data type of `data_type_queries` has no fetched table
of that type and its query is any value other than the literal `True`,
`run_search_on_dataset` returns the map sending every queried data type to
the empty list, an absent (`None`) join query and an empty
array-resolve-path list — regardless of other data types' table availability
— and no peer search request is issued (the fetch log is empty). -/
theorem claim_C4 (fetchTable : TableOwnership → TableRecord)
    (fetchPriv : SearchRequest → List QVal) (fetchPub : SearchRequest → QVal)
    (props0 : List (String × SchemaEntry)) (dataset : Dataset) (join_query : QVal)
    (dtq : List (String × QVal)) (iir : Bool) (dt0 : String) (q0 : QVal)
    (hmem : (dt0, q0) ∈ dtq)
    (hnotable : (fetched_table_data_types fetchTable dataset).contains dt0 = false)
    (hq : q0 ≠ .pybool true) :
    ∃ props2,
      run_search_on_dataset fetchTable fetchPriv fetchPub props0 dataset
          join_query dtq iir =
        some { dataset_results := dtq.map (fun p => (p.1, [])),
               join_query := .pynone, ic_paths_to_filter := [],
               schema_properties := props2, fetch_log := [] } := by
  obtain ⟨props2, herr⟩ := exclude_err_of_offender
    (fetched_table_data_types fetchTable dataset) dtq props0 []
    ⟨(dt0, q0), hmem, hnotable, hq⟩
  refine ⟨props2, ?_⟩
  simp only [run_search_on_dataset, herr]

/-- C4 witness: the theorem applied with `data_type_queries =
{"A": True, "B": False}`, a dataset with a table of type `"A"` only, and a
caller-supplied join query — the offender is `"B"`. -/
theorem claim_C4_witness :
    ∃ props2,
      run_search_on_dataset (fun t => ⟨"A", .pynone, t.table_id⟩) (fun _ => [])
          (fun _ => .pynone) [] ⟨[⟨"svc", "t1"⟩], []⟩
          (.pylist [.pystr "#resolve", .pystr "A", .pystr "[item]"])
          [("A", .pybool true), ("B", .pybool false)] true =
        some { dataset_results := [("A", []), ("B", [])],
               join_query := .pynone, ic_paths_to_filter := [],
               schema_properties := props2, fetch_log := [] } := by
  have h := claim_C4 (fun t => ⟨"A", .pynone, t.table_id⟩) (fun _ => [])
    (fun _ => .pynone) [] ⟨[⟨"svc", "t1"⟩], []⟩
    (.pylist [.pystr "#resolve", .pystr "A", .pystr "[item]"])
    [("A", .pybool true), ("B", .pybool false)] true "B" (.pybool false)
    (by decide) (by decide) (by decide)
  exact h

/-! ## Claim C7: the array-resolve paths returned by the orchestrator -/

/-- C7: the `arrayResolvePaths` component returned by `run_search_on_dataset`
is empty whenever internal results are not requested; and on a run that does
not short-circuit, it equals `_get_array_resolve_paths` applied to the
(possibly synthesized) join query as it stands before combination with the
data-type queries — when internal results are requested. -/
theorem claim_C7 (fetchTable : TableOwnership → TableRecord)
    (fetchPriv : SearchRequest → List QVal) (fetchPub : SearchRequest → QVal)
    (props0 : List (String × SchemaEntry)) (dataset : Dataset) (join_query : QVal)
    (dtq : List (String × QVal)) (iir : Bool) (res : RunResult)
    (hrun : run_search_on_dataset fetchTable fetchPriv fetchPub props0 dataset
        join_query dtq iir = some res) :
    (iir = false → res.ic_paths_to_filter = []) ∧
    (∀ (props : List (String × SchemaEntry)) (excluded : List String),
      exclude_no_table_data_types (fetched_table_data_types fetchTable dataset)
          dtq props0 [] = .ok (props, excluded) →
      res.ic_paths_to_filter =
        if iir = true then
          get_array_resolve_paths
            (if join_query = .pynone then
              linked_field_sets_to_join_query
                (get_dataset_linked_field_sets dataset.linked_field_sets)
                ((dtq.map Prod.fst).filter (fun d => ¬ excluded.contains d))
            else join_query)
        else []) := by
  simp only [run_search_on_dataset] at hrun
  split at hrun
  next props heq =>
    simp only [Option.some.injEq] at hrun
    constructor
    · intro _; rw [← hrun]
    · intro props2 excluded2 hok
      rw [heq] at hok
      simp at hok
  next props excluded heq =>
    split at hrun
    next hcomb => simp at hrun
    next jq2 hcomb =>
      simp only [Option.some.injEq] at hrun
      constructor
      · intro hi; rw [← hrun]; simp [hi]
      · intro props2 excluded2 hok
        rw [heq] at hok
        simp only [Except.ok.injEq, Prod.mk.injEq] at hok
        obtain ⟨rfl, rfl⟩ := hok
        rw [← hrun]

/-- C7 witness: the theorem applied to a run with one table of type `A`,
a caller-supplied join query resolving through `A.[item].x`, and internal
results requested; the returned path list is `["_root.A"]`, computed from the
join query before combination. -/
theorem claim_C7_witness :
    RunResult.ic_paths_to_filter
        { dataset_results := [("A", [])],
          join_query := .pylist [.pystr "#and", .pybool true,
            .pylist [.pystr "#resolve", .pystr "A", .pystr "[item]", .pystr "x"]],
          ic_paths_to_filter := ["_root.A"],
          schema_properties := [("A", .arrayItems (some (.pystr "schemaA")))],
          fetch_log := [{ service_artifact := "svc", table_id := "t1",
                          privateMode := true, query := .pybool true }] } =
      (if true = true then
        get_array_resolve_paths
          (if (QVal.pylist [.pystr "#resolve", .pystr "A", .pystr "[item]",
              .pystr "x"]) = .pynone then
            linked_field_sets_to_join_query
              (get_dataset_linked_field_sets ([] : LinkedFieldSetList))
              (([("A", QVal.pybool true)].map Prod.fst).filter
                (fun d => ¬ ([] : List String).contains d))
          else .pylist [.pystr "#resolve", .pystr "A", .pystr "[item]", .pystr "x"])
      else []) := by
  have h := claim_C7 (fun t => ⟨"A", .pystr "schemaA", t.table_id⟩) (fun _ => [])
    (fun _ => .pynone) [] ⟨[⟨"svc", "t1"⟩], []⟩
    (.pylist [.pystr "#resolve", .pystr "A", .pystr "[item]", .pystr "x"])
    [("A", .pybool true)] true
    { dataset_results := [("A", [])],
      join_query := .pylist [.pystr "#and", .pybool true,
        .pylist [.pystr "#resolve", .pystr "A", .pystr "[item]", .pystr "x"]],
      ic_paths_to_filter := ["_root.A"],
      schema_properties := [("A", .arrayItems (some (.pystr "schemaA")))],
      fetch_log := [{ service_artifact := "svc", table_id := "t1",
                      privateMode := true, query := .pybool true }] }
    (by decide)
  exact h.2 [] [] rfl

/-! ## Claim C8: public-mode contribution of one table -/

theorem dictGet_none_of_hasKey_false {α : Type} (d : List (String × α)) (k : String)
    (h : dictHasKey d k = false) : dictGet d k = Option.none := by
  induction d with
  | nil => rfl
  | cons p rest ih =>
    simp only [dictHasKey, List.any_cons, Bool.or_eq_false_iff] at h
    obtain ⟨h1, h2⟩ := h
    have hne : ¬ p.1 = k := by simpa using h1
    obtain ⟨k1, v1⟩ := p
    simp only [dictGet, if_neg hne]
    exact ih h2

theorem dictGet_isSome_of_hasKey {α : Type} (d : List (String × α)) (k : String)
    (h : dictHasKey d k = true) : ∃ l, dictGet d k = some l := by
  induction d with
  | nil => simp [dictHasKey] at h
  | cons p rest ih =>
    obtain ⟨k1, v1⟩ := p
    by_cases hk : k1 = k
    · exact ⟨v1, by simp [dictGet, hk]⟩
    · simp only [dictHasKey, List.any_cons, Bool.or_eq_true] at h
      rcases h with h1 | h2
      · exact absurd (by simpa using h1) hk
      · simpa [dictGet, hk] using ih h2

theorem dictGet_append_new {α : Type} (d : List (String × α)) (k : String) (v : α)
    (h : dictHasKey d k = false) : dictGet (d ++ [(k, v)]) k = some v := by
  induction d with
  | nil => simp [dictGet]
  | cons p rest ih =>
    simp only [dictHasKey, List.any_cons, Bool.or_eq_false_iff] at h
    obtain ⟨h1, h2⟩ := h
    have hne : ¬ p.1 = k := by simpa using h1
    obtain ⟨k1, v1⟩ := p
    simp only [List.cons_append, dictGet, if_neg hne]
    exact ih h2

theorem dictGet_dictExtend (d : List (String × List QVal)) (k : String) (v : List QVal) :
    dictGet (dictExtend d k v) k = (dictGet d k).map (fun l => l ++ v) := by
  induction d with
  | nil => rfl
  | cons p rest ih =>
    obtain ⟨k1, v1⟩ := p
    by_cases hk : k1 = k
    · rw [show dictExtend ((k1, v1) :: rest) k v = (k1, v1 ++ v) :: dictExtend rest k v by
        simp [dictExtend, hk]]
      simp [dictGet, hk]
    · rw [show dictExtend ((k1, v1) :: rest) k v = (k1, v1) :: dictExtend rest k v by
        simp [dictExtend, hk]]
      simp [dictGet, hk, ih]

/-- C8: for a queried table processed by the search worker in public mode
(absent effective join query and internal results not requested), a truthy
peer response contributes exactly one marker element to that data type's
entry of the results accumulator, and a falsy response contributes zero
elements. -/
theorem claim_C8 (fetchPriv : SearchRequest → List QVal) (fetchPub : SearchRequest → QVal)
    (dtq : List (String × QVal)) (st : SearchState)
    (pair : TableOwnership × TableRecord)
    (hq : dictHasKey dtq pair.2.data_type = true) :
    ((dictGet (table_search_step fetchPriv fetchPub .pynone dtq false st pair).dataset_results
        pair.2.data_type).getD []).length =
      ((dictGet st.dataset_results pair.2.data_type).getD []).length +
        (if truthy (fetchPub
            { service_artifact := pair.1.service_artifact, table_id := pair.2.id,
              privateMode := false,
              query := (dictGet dtq pair.2.data_type).getD .pynone }) = true
         then 1 else 0) := by
  have hbeq : (QVal.pynone == QVal.pynone) = true := rfl
  simp only [table_search_step, hq, hbeq, Bool.not_true, Bool.false_and,
    Bool.false_or, if_neg (by decide : ¬ (true = false))]
  by_cases hkey : dictHasKey st.dataset_results pair.2.data_type = true
  · obtain ⟨l, hl⟩ := dictGet_isSome_of_hasKey st.dataset_results pair.2.data_type hkey
    simp only [hkey, if_true, dictGet_dictExtend, hl]
    by_cases ht : truthy (fetchPub
        { service_artifact := pair.1.service_artifact, table_id := pair.2.id,
          privateMode := false,
          query := (dictGet dtq pair.2.data_type).getD .pynone }) = true <;>
      simp [ht]
  · have hkey2 : dictHasKey st.dataset_results pair.2.data_type = false := by
      simpa using hkey
    simp only [hkey2, Bool.false_eq_true, if_false,
      dictGet_append_new st.dataset_results pair.2.data_type _ hkey2,
      dictGet_none_of_hasKey_false st.dataset_results pair.2.data_type hkey2]
    by_cases ht : truthy (fetchPub
        { service_artifact := pair.1.service_artifact, table_id := pair.2.id,
          privateMode := false,
          query := (dictGet dtq pair.2.data_type).getD .pynone }) = true <;>
      simp [ht]

/-- C8 witness: a truthy public response (`True`) adds one marker element for
the table's data type, starting from an empty accumulator. -/
theorem claim_C8_witness :
    ((dictGet (table_search_step (fun _ => []) (fun _ => .pybool true) .pynone
        [("A", .pybool true)] false ⟨[], [], []⟩
        (⟨"svc", "t1"⟩, ⟨"A", .pystr "schemaA", "t1"⟩)).dataset_results "A").getD []).length =
      ((dictGet ([] : List (String × List QVal)) "A").getD []).length +
        (if truthy (QVal.pybool true) = true then 1 else 0) := by
  have h := claim_C8 (fun _ => []) (fun _ => .pybool true)
    [("A", .pybool true)] ⟨[], [], []⟩
    (⟨"svc", "t1"⟩, ⟨"A", .pystr "schemaA", "t1"⟩) (by decide)
  exact h

/-! ## Claim C10: the short-circuit leaves earlier schema mutations behind -/

theorem exclude_err_keeps (tdts : List String) :
    ∀ (l1 : List (String × QVal)) (dt0 : String) (q0 : QVal)
      (l2 : List (String × QVal)) (props : List (String × SchemaEntry))
      (excluded : List String),
      (∀ p ∈ l1, tdts.contains p.1 = true ∨ p.2 = .pybool true) →
      (l1.map Prod.fst).Nodup →
      tdts.contains dt0 = false → q0 ≠ .pybool true →
      ∃ props2,
        exclude_no_table_data_types tdts (l1 ++ (dt0, q0) :: l2) props excluded =
          .error props2 ∧
        (∀ k, k ∉ l1.map Prod.fst → dictGet props2 k = dictGet props k) ∧
        (∀ p ∈ l1, tdts.contains p.1 = false →
          dictGet props2 p.1 = some .bareArray) := by
  intro l1
  induction l1 with
  | nil =>
    intro dt0 q0 l2 props excluded hno hnd hc hq
    refine ⟨props, ?_, fun k _ => rfl, by simp⟩
    simp only [List.nil_append, exclude_no_table_data_types, hc]
    rw [if_neg (by simp), if_neg hq]
  | cons hd rest ih =>
    intro dt0 q0 l2 props excluded hno hnd hc hq
    obtain ⟨dt, q⟩ := hd
    rw [List.map_cons] at hnd
    have hnd2 : (rest.map Prod.fst).Nodup := (List.nodup_cons.mp hnd).2
    have hdtnot : dt ∉ rest.map Prod.fst := (List.nodup_cons.mp hnd).1
    by_cases h1 : tdts.contains dt = true
    · obtain ⟨props2, heq, hframe, hkeep⟩ := ih dt0 q0 l2 props excluded
        (fun p hp => hno p (List.mem_cons_of_mem _ hp)) hnd2 hc hq
      refine ⟨props2, ?_, ?_, ?_⟩
      · simp only [List.cons_append, exclude_no_table_data_types, if_pos h1]
        exact heq
      · intro k hk
        exact hframe k (fun hh => hk (by simp [hh]))
      · intro p hp hpc
        rcases List.mem_cons.mp hp with heq2 | hmem
        · rw [heq2] at hpc; simp only at hpc; rw [h1] at hpc; simp at hpc
        · exact hkeep p hmem hpc
    · have hqt : q = QVal.pybool true :=
        Or.resolve_left (hno (dt, q) (List.mem_cons_self _ _)) h1
      obtain ⟨props2, heq, hframe, hkeep⟩ := ih dt0 q0 l2
        (dictSet props dt .bareArray) (excluded ++ [dt])
        (fun p hp => hno p (List.mem_cons_of_mem _ hp)) hnd2 hc hq
      refine ⟨props2, ?_, ?_, ?_⟩
      · simp only [List.cons_append, exclude_no_table_data_types,
          if_neg (by simpa using h1 : ¬ tdts.contains dt = true), if_pos hqt]
        exact heq
      · intro k hk
        have hk2 : k ∉ rest.map Prod.fst := fun hh => hk (by simp [hh])
        have hkne : k ≠ dt := fun hh => hk (by simp [hh])
        rw [hframe k hk2, dictGet_dictSet_other props dt k .bareArray hkne]
      · intro p hp hpc
        rcases List.mem_cons.mp hp with heq2 | hmem
        · rw [heq2]
          simp only
          rw [hframe dt hdtnot, dictGet_dictSet_self]
        · exact hkeep p hmem hpc

/-- C10: when `run_search_on_dataset` short-circuits because a no-table data
type has a query other than the literal `True`, the caller-supplied schema
object is not restored: every no-table data type with query `True` iterated
earlier in `data_type_queries` order keeps the bare array schema entry added
for it, so the empty-result return is not atomic with respect to the schema
argument. -/
theorem claim_C10 (fetchTable : TableOwnership → TableRecord)
    (fetchPriv : SearchRequest → List QVal) (fetchPub : SearchRequest → QVal)
    (props0 : List (String × SchemaEntry)) (dataset : Dataset) (join_query : QVal)
    (l1 l2 : List (String × QVal)) (dt0 : String) (q0 : QVal) (iir : Bool)
    (hno : ∀ p ∈ l1,
      (fetched_table_data_types fetchTable dataset).contains p.1 = true ∨
        p.2 = .pybool true)
    (hnd : (l1.map Prod.fst).Nodup)
    (hc : (fetched_table_data_types fetchTable dataset).contains dt0 = false)
    (hq : q0 ≠ .pybool true) :
    ∃ res : RunResult,
      run_search_on_dataset fetchTable fetchPriv fetchPub props0 dataset
          join_query (l1 ++ (dt0, q0) :: l2) iir = some res ∧
      res.dataset_results = (l1 ++ (dt0, q0) :: l2).map (fun p => (p.1, [])) ∧
      (∀ p ∈ l1, (fetched_table_data_types fetchTable dataset).contains p.1 = false →
        dictGet res.schema_properties p.1 = some .bareArray) := by
  obtain ⟨props2, heq, _hframe, hkeep⟩ :=
    exclude_err_keeps (fetched_table_data_types fetchTable dataset) l1 dt0 q0 l2
      props0 [] hno hnd hc hq
  refine ⟨{ dataset_results := (l1 ++ (dt0, q0) :: l2).map (fun p => (p.1, [])),
            join_query := .pynone, ic_paths_to_filter := [],
            schema_properties := props2, fetch_log := [] }, ?_, rfl, hkeep⟩
  simp only [run_search_on_dataset, heq]

/-- C10 witness: the theorem applied with `data_type_queries =
{"C": True, "D": False}` on a dataset with no tables: the short-circuit on
`"D"` returns yet the schema keeps the bare array entry for `"C"`. -/
theorem claim_C10_witness :
    ∃ res : RunResult,
      run_search_on_dataset (fun t => ⟨"A", .pynone, t.table_id⟩) (fun _ => [])
          (fun _ => .pynone) [] ⟨[], []⟩ .pynone
          ([("C", .pybool true)] ++ ("D", .pybool false) :: []) false = some res ∧
      res.dataset_results =
        ([("C", QVal.pybool true)] ++ ("D", QVal.pybool false) :: []).map
          (fun p => (p.1, [])) ∧
      (∀ p ∈ [("C", QVal.pybool true)],
        (fetched_table_data_types (fun t => (⟨"A", .pynone, t.table_id⟩ : TableRecord))
            (⟨[], []⟩ : Dataset)).contains p.1 = false →
        dictGet res.schema_properties p.1 = some .bareArray) := by
  exact claim_C10 (fun t => ⟨"A", .pynone, t.table_id⟩) (fun _ => [])
    (fun _ => .pynone) [] ⟨[], []⟩ .pynone
    [("C", .pybool true)] [] "D" (.pybool false) false
    (by decide) (by decide) (by decide) (by decide)

/-! ## Claim C1: excluded data types are missing from the accumulator -/

/-- C1 (code bug): with `data_type_queries = {"C": True}` and no tables of
type `"C"`, the run completes without the short-circuit — `"C"` is excluded
and the schema gains its bare array entry — yet the returned results
accumulator is the empty dictionary: the key `"C"` is absent rather than
mapped to `[]`, contradicting the claim and the source's own comment at line
256 ("Give it a boilerplate array schema and result set"). -/
theorem claim_C1_code_bug :
    (run_search_on_dataset (fun t => ⟨"A", .pynone, t.table_id⟩) (fun _ => [])
        (fun _ => .pynone) [] ⟨[], []⟩ .pynone [("C", .pybool true)] false).map
        (fun r => (dictGet r.dataset_results "C", r.schema_properties)) =
      some (Option.none, [("C", SchemaEntry.bareArray)]) := by
  decide

end BentoFed
